import Mathlib

/-!
Verification of `debug_calls` (src/debug_calls/decorators.py).

The development shallowly embeds the two components of the utility:

* `getCallerInfo` — the caller locator (`get_caller_info`, lines 30-40):
  it walks the captured call stack outward, skipping frames whose
  (filename, function) pair is in the skip list.

* the argument classifier / wrapper factory (`debug_calls`, lines 43-139):
  decoration time builds static tables from the parameter list
  (`buildTables`, `debugCallsTables`); call time classifies the actual
  arguments (`callExec`) and delegates to the wrapped callable.

Python dicts are embedded as association lists `List (String × β)` in
insertion order: assignment to an existing key keeps its position
(`dictSet`), assignment to a fresh key appends.  Values are a type
parameter `V`; the `inspect.Parameter.empty` sentinel used for
"no default" is embedded as `Option V` with `none` for the sentinel.
A Python exception escaping a phase is embedded as `Except String`.
-/

/-- One entry of the call stack as used by `get_caller_info`: the source
destructures the 6-tuple `(_, filename, lineno, function, _, _)` and uses
only the three middle fields, so only those are modelled. -/
structure Frame where
  filename : String
  lineno : Nat
  function : String
  deriving DecidableEq, Repr

/-- The loop of `get_caller_info` (lines 36-40): `i` is the enumeration
index in the full captured stack; the skipped flag of a hit at index `i`
is `i > 0`, and exhaustion returns the `("", 0, "", True)` sentinel. -/
def getCallerInfoGo (i : Nat) (callStack : List Frame)
    (framesToSkip : List (String × String)) : String × Nat × String × Bool :=
  match callStack with
  | [] => ("", 0, "", true)
  | f :: rest =>
    if (f.filename, f.function) ∈ framesToSkip then
      getCallerInfoGo (i + 1) rest framesToSkip
    else
      (f.filename, f.lineno, f.function, decide (i > 0))

/-- Embedding of `get_caller_info` (lines 30-40), taking the already-captured stack
`stack()[2:]` (outermost caller last) and the skip list as inputs. -/
def getCallerInfo (callStack : List Frame)
    (framesToSkip : List (String × String)) : String × Nat × String × Bool :=
  getCallerInfoGo 0 callStack framesToSkip

/-- The first frame of the chain whose (filename, function) pair is not in
the skip list — the "nearest outward non-skipped frame" of the spec. -/
def firstNonSkipped (callStack : List Frame)
    (framesToSkip : List (String × String)) : Option Frame :=
  callStack.find? (fun f => !((f.filename, f.function) ∈ framesToSkip : Bool))

/-- The five parameter kinds of `inspect.Parameter`. -/
inductive PKind where
  | posOnly
  | posOrKw
  | kwOnly
  | varPos
  | varKw
  deriving DecidableEq, Repr

/-- One declared parameter: name, kind, and default. `none` embeds the
`inspect.Parameter.empty` sentinel (no default declared). -/
structure Param (V : Type) where
  name : String
  kind : PKind
  default : Option V
  deriving DecidableEq, Repr

/-- A parameter kind that contributes to `param_to_default` ("named"). -/
def PKind.isNamed : PKind → Bool
  | .posOnly => true
  | .posOrKw => true
  | .kwOnly => true
  | .varPos => false
  | .varKw => false

/-- The static tables `debug_calls` builds once at decoration time
(lines 76-96), minus the alignment width which is computed separately. -/
structure StaticTables (V : Type) where
  paramToDefault : List (String × Option V × String)
  pargNames : List String
  kwargNames : List String
  starPargsName : Option String
  starKwargsName : Option String
  deriving DecidableEq, Repr

/-- One iteration of the decoration-time loop (lines 82-96).  Parameter
names in a Python signature are unique, so dict assignment to
`param_to_default` is an append. -/
def buildStep {V : Type} (t : StaticTables V) (p : Param V) : StaticTables V :=
  match p.kind with
  | .posOnly =>
    { t with paramToDefault := t.paramToDefault ++ [(p.name, p.default, "d")],
             pargNames := t.pargNames ++ [p.name] }
  | .posOrKw =>
    { t with paramToDefault := t.paramToDefault ++ [(p.name, p.default, "d")],
             pargNames := t.pargNames ++ [p.name],
             kwargNames := t.kwargNames ++ [p.name] }
  | .kwOnly =>
    { t with paramToDefault := t.paramToDefault ++ [(p.name, p.default, "d")],
             kwargNames := t.kwargNames ++ [p.name] }
  | .varPos => { t with starPargsName := some p.name }
  | .varKw => { t with starKwargsName := some p.name }

/-- The decoration-time loop over the declared parameters in order. -/
def buildTables {V : Type} (params : List (Param V)) : StaticTables V :=
  params.foldl buildStep ⟨[], [], [], none, none⟩

/-- The width `max(len(name) for name in param_to_default)` on a nonempty table. -/
def padLengthOf {V : Type} (paramToDefault : List (String × Option V × String)) : Nat :=
  (paramToDefault.map (fun e => e.1.length)).foldl Nat.max 0

/-- Decoration time as a whole (lines 74-98): builds the static tables and
the alignment width.  `max()` over an empty sequence raises `ValueError`,
so on a signature with zero named parameters decoration fails (`none`). -/
def debugCallsTables {V : Type} (params : List (Param V)) :
    Option (StaticTables V × Nat) :=
  let t := buildTables params
  if t.paramToDefault.isEmpty then none
  else some (t, padLengthOf t.paramToDefault)

/-- Lookup in an insertion-ordered dict: the value at the first entry whose
key is `k`. -/
def lookupStr {β : Type} (d : List (String × β)) (k : String) : Option β :=
  (d.find? (fun e => e.1 == k)).map (fun e => e.2)

/-- Python dict assignment `d[k] = v`: an existing key keeps its position
(its entries are overwritten in place), a fresh key is appended. -/
def dictSet {β : Type} (d : List (String × β)) (k : String) (v : β) :
    List (String × β) :=
  if d.any (fun e => e.1 == k) then
    d.map (fun e => if e.1 == k then (k, v) else e)
  else
    d ++ [(k, v)]

/-- The copy `dict.copy()` (line 107): a fresh dict with the same items in the same
insertion order. -/
def dictCopy {β : Type} (d : List (String × β)) : List (String × β) :=
  d.map id

/-- The first call-time loop (lines 111-115): each actual keyword argument
either overwrites its entry of `arg_to_value` with category `"k"` (when its
name is keyword-capable) or is appended to `star_kwargs`. -/
def applyKwargs {V : Type} (kwargNames : List String)
    (kwargs : List (String × V))
    (init : List (String × Option V × String) × List (String × V)) :
    List (String × Option V × String) × List (String × V) :=
  kwargs.foldl
    (fun acc kv =>
      if kwargNames.contains kv.1 then
        (dictSet acc.1 kv.1 (some kv.2, "k"), acc.2)
      else
        (acc.1, acc.2 ++ [(kv.1, kv.2)]))
    init

/-- The membership test `name in kwargs.items()` of line 118.  In CPython it
compares the string `name` for equality against the `(key, value)` tuples
produced by `dict.items()`; `str.__eq__` on a tuple and `tuple.__eq__` on a
str both return `NotImplemented`, so every such comparison is `False`.  The
per-pair comparison is therefore embedded as the constant `false`. -/
def pyStrEqPair {V : Type} (_name : String) (_kv : String × V) : Bool :=
  false

/-- The test `name in kwargs.items()`: any pair of `kwargs` comparing equal. -/
def strInItems {V : Type} (name : String) (kwargs : List (String × V)) : Bool :=
  kwargs.any (pyStrEqPair name)

/-- Line 118: `[name for name in parg_names if name not in kwargs.items()]`. -/
def remainingPargNames {V : Type} (pargNames : List String)
    (kwargs : List (String × V)) : List String :=
  pargNames.filter (fun name => !(strInItems name kwargs))

/-- Line 120: `arg_to_value.update(zip(remaining_parg_names, product(pargs, "p")))`.
`product(pargs, "p")` yields the pairs `(v, 'p')` for `v` in `pargs` (the
one-character string `"p"` iterates as the single element `'p'`), so the
update writes `(pargs[j], "p")` at key `remaining_parg_names[j]`; `dict.update`
overwrites existing keys in place. -/
def applyPargs {V : Type} (d : List (String × Option V × String))
    (remaining : List String) (pargs : List V) :
    List (String × Option V × String) :=
  (remaining.zip (pargs.map (fun v => ((some v, "p") : Option V × String)))).foldl
    (fun acc e => dictSet acc e.1 e.2) d

/-- Everything one invocation of `wrapper` (lines 101-133) computes:
the per-call binding record, the two excess collections, whether the report
phase raised, the delegated outcome, and the closure state (the static
tables) as observed after the call. -/
structure CallRecord (V : Type) where
  argToValue : List (String × Option V × String)
  starPargs : List V
  starKwargs : List (String × V)
  result : Except String V
  tablesAfter : StaticTables V

/-- The message of the `ValueError` raised by `max()` on an empty sequence
(line 130 when `star_kwargs` is empty). -/
def maxEmptyMsg : String :=
  "ValueError: max() arg is an empty sequence"

/-- One invocation of `wrapper` (lines 101-133) over the static tables `t`
captured by the closure and the wrapped callable `f`.  The body starts from
a copy of `param_to_default` (line 107) and only ever mutates that copy and
the two excess collections, so the closure state is returned unchanged in
`tablesAfter`.  When the callable declares a variadic-keyword parameter,
line 130 computes `max(len(name) for name in star_kwargs)`, which raises
`ValueError` on an empty `star_kwargs` before `__c` is invoked (line 133);
otherwise the original `pargs` and `kwargs` are forwarded unchanged. -/
def callExec {V : Type} (t : StaticTables V)
    (f : List V → List (String × V) → Except String V)
    (pargs : List V) (kwargs : List (String × V)) : CallRecord V :=
  let start := dictCopy t.paramToDefault
  let afterKw := applyKwargs t.kwargNames kwargs (start, [])
  let remaining := remainingPargNames t.pargNames kwargs
  let argToValue := applyPargs afterKw.1 remaining pargs
  let starPargs := pargs.drop remaining.length
  let starKwargs := afterKw.2
  let result :=
    if t.starKwargsName.isSome && starKwargs.isEmpty then
      Except.error maxEmptyMsg
    else
      f pargs kwargs
  ⟨argToValue, starPargs, starKwargs, result, t⟩

/-- The named-parameter lines of the report (lines 123-124) as structured
rows `(category letter, name, value)` in print order. -/
def reportRows {V : Type} (argToValue : List (String × Option V × String)) :
    List (String × String × Option V) :=
  argToValue.map (fun e => (e.2.2, e.1, e.2.1))

/-- The variadic-keyword block of the report (lines 128-132): absent when no
variadic-keyword parameter is declared, otherwise the declared name together
with the excess-keyword entries in order. -/
def starKwBlock {V : Type} (t : StaticTables V)
    (starKwargs : List (String × V)) : Option (String × List (String × V)) :=
  t.starKwargsName.map (fun nm => (nm, starKwargs))

/-- Spec-side: the positional-capable names (positional-only and
positional-or-keyword) in declaration order. -/
def posCapableNames {V : Type} (params : List (Param V)) : List String :=
  (params.filter (fun p => p.kind == PKind.posOnly || p.kind == PKind.posOrKw)).map
    (fun p => p.name)

/-- Spec-side: the keyword-capable names (positional-or-keyword and
keyword-only) in declaration order. -/
def kwCapableNames {V : Type} (params : List (Param V)) : List String :=
  (params.filter (fun p => p.kind == PKind.posOrKw || p.kind == PKind.kwOnly)).map
    (fun p => p.name)

/-- Spec-side: the named parameters (positional-only, positional-or-keyword,
keyword-only) in declaration order. -/
def namedParams {V : Type} (params : List (Param V)) : List (Param V) :=
  params.filter (fun p => p.kind.isNamed)

/-- The filter of line 118 as the spec describes it: the positional-capable
names excluding every name that appears as a key of the actual keyword
arguments, in declaration order. -/
def remainingPargNamesSpec {V : Type} (pargNames : List String)
    (kwargs : List (String × V)) : List String :=
  pargNames.filter (fun name => !(kwargs.any (fun kv => kv.1 == name)))

/-- The per-parameter binding the spec describes: a parameter whose name is
paired with a positional argument (declaration-position pairing of the
positional-capable names against `pargs`) is reported `"p"` with that
argument; otherwise a parameter supplied by name (its name a key of the
keyword arguments and keyword-capable) is reported `"k"` with that value;
otherwise it is reported `"d"` with its declared default. -/
def expectedEntry {V : Type} (pn kwn : List String) (pargs : List V)
    (kwargs : List (String × V)) (nm : String) (df : Option V) :
    Option V × String :=
  match (pn.zip pargs).find? (fun e => e.1 == nm) with
  | some e => (some e.2, "p")
  | none =>
    match kwargs.find? (fun e => e.1 == nm) with
    | some kv => if kwn.contains nm then (some kv.2, "k") else (df, "d")
    | none => (df, "d")

/-- A call `(pargs, kwargs)` that Python would bind successfully against the
declared parameters of the undecorated callable: keyword names are distinct
(they come from a dict); positional arguments beyond the positional-capable
slots need a variadic-positional parameter; a keyword name neither
keyword-capable nor absorbed by a variadic-keyword parameter is a
`TypeError`; a keyword name that is keyword-capable and whose slot is also
filled positionally is a `TypeError` (multiple values); every named
parameter without a default must be bound by position or by name. -/
def ValidCall {V : Type} (params : List (Param V)) (pargs : List V)
    (kwargs : List (String × V)) : Prop :=
  (kwargs.map (fun kv => kv.1)).Nodup ∧
  (pargs.length ≤ (posCapableNames params).length ∨
    params.any (fun p => p.kind == PKind.varPos) = true) ∧
  (∀ kv ∈ kwargs, kv.1 ∈ kwCapableNames params ∨
    params.any (fun p => p.kind == PKind.varKw) = true) ∧
  (∀ nm ∈ (posCapableNames params).take pargs.length,
    nm ∈ kwCapableNames params → ∀ kv ∈ kwargs, kv.1 ≠ nm) ∧
  (∀ p ∈ params, p.kind.isNamed = true → p.default.isNone = true →
    p.name ∈ (posCapableNames params).take pargs.length ∨
    (p.name ∈ kwCapableNames params ∧ ∃ kv ∈ kwargs, kv.1 = p.name))

instance {V : Type} (params : List (Param V)) (pargs : List V)
    (kwargs : List (String × V)) : Decidable (ValidCall params pargs kwargs) := by
  unfold ValidCall
  exact inferInstance

/-- A concrete Python value type for the worked examples. -/
inductive PyVal where
  | int (n : Int)
  | str (s : String)
  deriving DecidableEq, Repr

/-! ### Dict lemmas -/

theorem find?_map_overwrite_self {β : Type} (d : List (String × β)) (k : String)
    (v : β) (h : d.any (fun e => e.1 == k) = true) :
    (d.map (fun e => if e.1 == k then (k, v) else e)).find? (fun e => e.1 == k) =
      some (k, v) := by
  induction d with
  | nil => simp at h
  | cons e d ih =>
    by_cases he : (e.1 == k) = true
    · have hmap : (e :: d).map (fun e => if e.1 == k then (k, v) else e) =
          (k, v) :: d.map (fun e => if e.1 == k then (k, v) else e) := by
        rw [List.map_cons, if_pos he]
      rw [hmap]
      simp only [List.find?_cons, beq_self_eq_true k]
    · have hfe : (e.1 == k) = false := Bool.eq_false_iff.mpr he
      have hd : d.any (fun e => e.1 == k) = true := by
        simpa [hfe] using h
      have hmap : (e :: d).map (fun e => if e.1 == k then (k, v) else e) =
          e :: d.map (fun e => if e.1 == k then (k, v) else e) := by
        rw [List.map_cons, if_neg he]
      rw [hmap]
      simp only [List.find?_cons, hfe]
      exact ih hd

theorem find?_map_overwrite_ne {β : Type} (d : List (String × β)) (k k' : String)
    (v : β) (h : k' ≠ k) :
    (d.map (fun e => if e.1 == k then (k, v) else e)).find? (fun e => e.1 == k') =
      d.find? (fun e => e.1 == k') := by
  induction d with
  | nil => rfl
  | cons e d ih =>
    by_cases he : (e.1 == k) = true
    · have hek : e.1 = k := by simpa using he
      have h1 : ((k : String) == k') = false := by
        rw [Bool.eq_false_iff]
        simp only [ne_eq, beq_iff_eq]
        exact fun hh => h hh.symm
      have h2 : (e.1 == k') = false := by
        rw [hek]
        exact h1
      have hmap : (e :: d).map (fun e => if e.1 == k then (k, v) else e) =
          (k, v) :: d.map (fun e => if e.1 == k then (k, v) else e) := by
        rw [List.map_cons, if_pos he]
      rw [hmap]
      simp only [List.find?_cons, h1, h2]
      exact ih
    · have hmap : (e :: d).map (fun e => if e.1 == k then (k, v) else e) =
          e :: d.map (fun e => if e.1 == k then (k, v) else e) := by
        rw [List.map_cons, if_neg he]
      rw [hmap]
      cases he' : (e.1 == k') with
      | true => simp only [List.find?_cons, he']
      | false =>
        simp only [List.find?_cons, he']
        exact ih

theorem lookupStr_append {β : Type} (d₁ d₂ : List (String × β)) (k : String) :
    lookupStr (d₁ ++ d₂) k = (lookupStr d₁ k).or (lookupStr d₂ k) := by
  unfold lookupStr
  rw [List.find?_append]
  cases d₁.find? (fun e => e.1 == k) <;> simp

theorem lookupStr_dictSet_self {β : Type} (d : List (String × β)) (k : String) (v : β) :
    lookupStr (dictSet d k v) k = some v := by
  unfold dictSet
  by_cases h : d.any (fun e => e.1 == k) = true
  · rw [if_pos h]
    unfold lookupStr
    rw [find?_map_overwrite_self d k v h]
    rfl
  · rw [if_neg h, lookupStr_append]
    have hnone : lookupStr d k = none := by
      unfold lookupStr
      rw [List.find?_eq_none.mpr]
      · rfl
      · intro x hx hbeq
        exact h (List.any_eq_true.mpr ⟨x, hx, hbeq⟩)
    rw [hnone]
    simp [lookupStr]

theorem lookupStr_dictSet_ne {β : Type} (d : List (String × β)) (k k' : String)
    (v : β) (h : k' ≠ k) :
    lookupStr (dictSet d k v) k' = lookupStr d k' := by
  unfold dictSet
  by_cases hany : d.any (fun e => e.1 == k) = true
  · rw [if_pos hany]
    unfold lookupStr
    rw [find?_map_overwrite_ne d k k' v h]
  · rw [if_neg hany, lookupStr_append]
    have h2 : lookupStr [(k, v)] k' = none := by
      simp [lookupStr, beq_iff_eq]
      exact fun hkk => h hkk.symm
    rw [h2, Option.or_none]



/-! ### Decoration-time characterizations -/

theorem foldl_buildStep_paramToDefault {V : Type} (ps : List (Param V))
    (t0 : StaticTables V) :
    (ps.foldl buildStep t0).paramToDefault =
      t0.paramToDefault ++ (namedParams ps).map (fun p => (p.name, p.default, "d")) := by
  induction ps generalizing t0 with
  | nil => simp [namedParams]
  | cons p ps ih =>
    rw [List.foldl_cons, ih]
    cases hk : p.kind <;>
      simp [buildStep, namedParams, PKind.isNamed, hk, List.filter_cons]

theorem foldl_buildStep_pargNames {V : Type} (ps : List (Param V))
    (t0 : StaticTables V) :
    (ps.foldl buildStep t0).pargNames = t0.pargNames ++ posCapableNames ps := by
  induction ps generalizing t0 with
  | nil => simp [posCapableNames]
  | cons p ps ih =>
    rw [List.foldl_cons, ih]
    cases hk : p.kind <;>
      simp [buildStep, posCapableNames, hk, List.filter_cons]

theorem foldl_buildStep_kwargNames {V : Type} (ps : List (Param V))
    (t0 : StaticTables V) :
    (ps.foldl buildStep t0).kwargNames = t0.kwargNames ++ kwCapableNames ps := by
  induction ps generalizing t0 with
  | nil => simp [kwCapableNames]
  | cons p ps ih =>
    rw [List.foldl_cons, ih]
    cases hk : p.kind <;>
      simp [buildStep, kwCapableNames, hk, List.filter_cons]

theorem buildTables_paramToDefault {V : Type} (params : List (Param V)) :
    (buildTables params).paramToDefault =
      (namedParams params).map (fun p => (p.name, p.default, "d")) := by
  unfold buildTables
  rw [foldl_buildStep_paramToDefault]
  rfl

theorem buildTables_pargNames {V : Type} (params : List (Param V)) :
    (buildTables params).pargNames = posCapableNames params := by
  unfold buildTables
  rw [foldl_buildStep_pargNames]
  rfl

theorem buildTables_kwargNames {V : Type} (params : List (Param V)) :
    (buildTables params).kwargNames = kwCapableNames params := by
  unfold buildTables
  rw [foldl_buildStep_kwargNames]
  rfl

theorem foldl_buildStep_starKw_of_none {V : Type} (ps : List (Param V))
    (t0 : StaticTables V) (h : ∀ p ∈ ps, p.kind ≠ PKind.varKw) :
    (ps.foldl buildStep t0).starKwargsName = t0.starKwargsName := by
  induction ps generalizing t0 with
  | nil => rfl
  | cons p ps ih =>
    rw [List.foldl_cons, ih _ (fun q hq => h q (List.mem_cons.mpr (Or.inr hq)))]
    cases hk : p.kind <;> simp [buildStep, hk]
    exact absurd hk (h p (List.mem_cons.mpr (Or.inl rfl)))

theorem foldl_buildStep_starKw_isSome_mono {V : Type} (ps : List (Param V))
    (t0 : StaticTables V) (h : t0.starKwargsName.isSome = true) :
    (ps.foldl buildStep t0).starKwargsName.isSome = true := by
  induction ps generalizing t0 with
  | nil => exact h
  | cons p ps ih =>
    rw [List.foldl_cons]
    apply ih
    cases hk : p.kind <;> simp [buildStep, hk] <;> exact h

theorem foldl_buildStep_starKw_isSome {V : Type} (ps : List (Param V))
    (t0 : StaticTables V) (q : Param V) (hq : q ∈ ps) (hk : q.kind = PKind.varKw) :
    (ps.foldl buildStep t0).starKwargsName.isSome = true := by
  induction ps generalizing t0 with
  | nil => cases hq
  | cons p ps ih =>
    rw [List.foldl_cons]
    rcases List.mem_cons.mp hq with h | h
    · apply foldl_buildStep_starKw_isSome_mono
      subst h
      simp [buildStep, hk]
    · exact ih _ h

theorem buildTables_starKw_none {V : Type} (params : List (Param V))
    (h : ∀ p ∈ params, p.kind ≠ PKind.varKw) :
    (buildTables params).starKwargsName = none := by
  unfold buildTables
  rw [foldl_buildStep_starKw_of_none _ _ h]

theorem buildTables_starKw_isSome {V : Type} (params : List (Param V))
    (q : Param V) (hq : q ∈ params) (hk : q.kind = PKind.varKw) :
    (buildTables params).starKwargsName.isSome = true :=
  foldl_buildStep_starKw_isSome params _ q hq hk

/-! ### Call-time lemmas -/

theorem applyKwargs_star {V : Type} (kwn : List String) (kwargs : List (String × V))
    (d : List (String × Option V × String)) (s : List (String × V)) :
    (applyKwargs kwn kwargs (d, s)).2 =
      s ++ kwargs.filter (fun kv => !(kwn.contains kv.1)) := by
  induction kwargs generalizing d s with
  | nil => simp [applyKwargs]
  | cons kv rest ih =>
    unfold applyKwargs
    rw [List.foldl_cons]
    cases hc : kwn.contains kv.1 with
    | true =>
      simp only [hc, if_true]
      rw [show (rest.foldl _ (dictSet d kv.1 (some kv.2, "k"), s)) =
        applyKwargs kwn rest (dictSet d kv.1 (some kv.2, "k"), s) from rfl, ih]
      simp [List.filter_cons, List.elem_iff.mp hc]
    | false =>
      have hm : kv.1 ∉ kwn := by
        intro hmem
        have h2 : kwn.contains kv.1 = true := List.elem_iff.mpr hmem
        rw [hc] at h2
        cases h2
      simp only [hc, Bool.false_eq_true, if_false]
      rw [show (rest.foldl _ (d, s ++ [(kv.1, kv.2)])) =
        applyKwargs kwn rest (d, s ++ [(kv.1, kv.2)]) from rfl, ih]
      simp [List.filter_cons, hm]

theorem lookupStr_applyKwargs {V : Type} (kwn : List String)
    (kwargs : List (String × V)) (d : List (String × Option V × String))
    (s : List (String × V)) (k : String)
    (hnd : (kwargs.map (fun kv => kv.1)).Nodup) :
    lookupStr (applyKwargs kwn kwargs (d, s)).1 k =
      match kwargs.find? (fun kv => kv.1 == k) with
      | some kv =>
        if kwn.contains k = true then some (some kv.2, "k") else lookupStr d k
      | none => lookupStr d k := by
  induction kwargs generalizing d s with
  | nil => simp [applyKwargs]
  | cons kv rest ih =>
    have hnd1 : kv.1 ∉ rest.map (fun kv => kv.1) := (List.nodup_cons.mp hnd).1
    have hnd2 : (rest.map (fun kv => kv.1)).Nodup := (List.nodup_cons.mp hnd).2
    have hrest_none : ∀ k0, k0 = kv.1 →
        rest.find? (fun e => e.1 == k0) = none := by
      intro k0 hk0
      rw [List.find?_eq_none]
      intro e he hbeq
      have : e.1 = k0 := by simpa using hbeq
      exact hnd1 (hk0 ▸ this ▸ List.mem_map.mpr ⟨e, he, rfl⟩)
    unfold applyKwargs
    rw [List.foldl_cons]
    cases hk : (kv.1 == k) with
    | true =>
      have hkk : kv.1 = k := by simpa using hk
      cases hc : kwn.contains kv.1 with
      | true =>
        simp only [hc, if_true]
        rw [show (rest.foldl _ (dictSet d kv.1 (some kv.2, "k"), s)) =
          applyKwargs kwn rest (dictSet d kv.1 (some kv.2, "k"), s) from rfl]
        rw [ih _ _ hnd2]
        rw [hrest_none k hkk.symm]
        simp only [List.find?_cons, hk]
        rw [hkk, lookupStr_dictSet_self]
        rw [hkk] at hc
        simp [List.elem_iff.mp hc]
      | false =>
        have hm : k ∉ kwn := by
          rw [hkk] at hc
          intro hmem
          have h2 : kwn.contains k = true := List.elem_iff.mpr hmem
          rw [hc] at h2
          cases h2
        simp only [hc, Bool.false_eq_true, if_false]
        rw [show (rest.foldl _ (d, s ++ [(kv.1, kv.2)])) =
          applyKwargs kwn rest (d, s ++ [(kv.1, kv.2)]) from rfl]
        rw [ih _ _ hnd2]
        rw [hrest_none k hkk.symm]
        simp only [List.find?_cons, hk]
        simp [hm]
    | false =>
      have hkk : k ≠ kv.1 := by
        intro hh
        rw [hh] at hk
        simp at hk
      cases hc : kwn.contains kv.1 with
      | true =>
        simp only [hc, if_true]
        rw [show (rest.foldl _ (dictSet d kv.1 (some kv.2, "k"), s)) =
          applyKwargs kwn rest (dictSet d kv.1 (some kv.2, "k"), s) from rfl]
        rw [ih _ _ hnd2]
        simp only [List.find?_cons, hk]
        cases hf : rest.find? (fun e => e.1 == k) with
        | some kv2 =>
          simp only []
          cases hck : kwn.contains k with
          | true => simp [hck]
          | false => simp [hck, lookupStr_dictSet_ne d kv.1 k _ hkk]
        | none => simp [lookupStr_dictSet_ne d kv.1 k _ hkk]
      | false =>
        simp only [hc, Bool.false_eq_true, if_false]
        rw [show (rest.foldl _ (d, s ++ [(kv.1, kv.2)])) =
          applyKwargs kwn rest (d, s ++ [(kv.1, kv.2)]) from rfl]
        rw [ih _ _ hnd2]
        simp only [List.find?_cons, hk]

theorem strInItems_false {V : Type} (name : String) (kwargs : List (String × V)) :
    strInItems name kwargs = false := by
  rw [strInItems, List.any_eq_false]
  intro kv _
  simp [pyStrEqPair]

/-- The filter of line 118 removes nothing: the membership test compares a
string against (key, value) tuples and is always false. -/
theorem remainingPargNames_eq_pargNames {V : Type} (pargNames : List String)
    (kwargs : List (String × V)) :
    remainingPargNames pargNames kwargs = pargNames := by
  unfold remainingPargNames
  apply List.filter_eq_self.mpr
  intro a _
  rw [strInItems_false]
  rfl

theorem find?_zip_eq_none {α : Type} (l1 : List String) (l2 : List α) (k : String)
    (h : k ∉ l1) :
    (l1.zip l2).find? (fun e => e.1 == k) = none := by
  rw [List.find?_eq_none]
  intro e he hbeq
  have h1 : e.1 ∈ l1 := (List.of_mem_zip he).1
  have h2 : e.1 = k := by simpa using hbeq
  exact h (h2 ▸ h1)

theorem lookupStr_applyPargs {V : Type} (remaining : List String) (pargs : List V)
    (d : List (String × Option V × String)) (k : String) (hnd : remaining.Nodup) :
    lookupStr (applyPargs d remaining pargs) k =
      match (remaining.zip pargs).find? (fun e => e.1 == k) with
      | some e => some (some e.2, "p")
      | none => lookupStr d k := by
  induction remaining generalizing pargs d with
  | nil => simp [applyPargs]
  | cons r rem ih =>
    cases pargs with
    | nil => simp [applyPargs]
    | cons v vs =>
      have hstep : applyPargs d (r :: rem) (v :: vs) =
          applyPargs (dictSet d r (some v, "p")) rem vs := by
        simp [applyPargs]
      have hndr : r ∉ rem := (List.nodup_cons.mp hnd).1
      have hnd2 : rem.Nodup := (List.nodup_cons.mp hnd).2
      rw [hstep, ih vs _ hnd2, List.zip_cons_cons]
      cases hk : (r == k) with
      | true =>
        have hrk : r = k := by simpa using hk
        have hzn : (rem.zip vs).find? (fun e => e.1 == k) = none :=
          find?_zip_eq_none rem vs k (hrk ▸ hndr)
        rw [hzn]
        simp only [List.find?_cons, hk]
        rw [hrk, lookupStr_dictSet_self]
      | false =>
        have hkr : k ≠ r := by
          intro hh
          rw [hh] at hk
          simp at hk
        simp only [List.find?_cons, hk]
        cases hf : (rem.zip vs).find? (fun e => e.1 == k) with
        | some e => rfl
        | none => rw [lookupStr_dictSet_ne d r k _ hkr]

theorem lookupStr_namedMap {V : Type} (params : List (Param V)) (p : Param V)
    (hnd : (params.map (fun q => q.name)).Nodup) (hp : p ∈ params)
    (hnamed : p.kind.isNamed = true) :
    lookupStr ((namedParams params).map (fun q => (q.name, q.default, "d")))
      p.name = some (p.default, "d") := by
  induction params with
  | nil => cases hp
  | cons q ps ih =>
    have hq1 : q.name ∉ ps.map (fun q => q.name) := (List.nodup_cons.mp hnd).1
    have hnd2 : (ps.map (fun q => q.name)).Nodup := (List.nodup_cons.mp hnd).2
    rcases List.mem_cons.mp hp with h | h
    · subst h
      rw [show namedParams (p :: ps) = p :: namedParams ps by
        simp [namedParams, List.filter_cons, hnamed]]
      rw [List.map_cons, lookupStr]
      simp only [List.find?_cons, beq_self_eq_true p.name]
      rfl
    · have hne : (q.name == p.name) = false := by
        rw [Bool.eq_false_iff]
        simp only [ne_eq, beq_iff_eq]
        intro hh
        exact hq1 (hh ▸ List.mem_map.mpr ⟨p, h, rfl⟩)
      by_cases hqn : q.kind.isNamed = true
      · rw [show namedParams (q :: ps) = q :: namedParams ps by
          simp [namedParams, List.filter_cons, hqn]]
        rw [List.map_cons, lookupStr, List.find?_cons, hne]
        exact ih hnd2 h
      · rw [show namedParams (q :: ps) = namedParams ps by
          simp [namedParams, List.filter_cons, hqn]]
        exact ih hnd2 h

theorem posCapableNames_nodup {V : Type} (params : List (Param V))
    (hnd : (params.map (fun q => q.name)).Nodup) :
    (posCapableNames params).Nodup := by
  unfold posCapableNames
  exact ((List.filter_sublist params).map (fun p => p.name)).nodup hnd

/-! ### `callExec` field equations -/

theorem callExec_argToValue {V : Type} (t : StaticTables V)
    (f : List V → List (String × V) → Except String V)
    (pargs : List V) (kwargs : List (String × V)) :
    (callExec t f pargs kwargs).argToValue =
      applyPargs (applyKwargs t.kwargNames kwargs (dictCopy t.paramToDefault, [])).1
        (remainingPargNames t.pargNames kwargs) pargs := rfl

theorem callExec_starKwargs {V : Type} (t : StaticTables V)
    (f : List V → List (String × V) → Except String V)
    (pargs : List V) (kwargs : List (String × V)) :
    (callExec t f pargs kwargs).starKwargs =
      (applyKwargs t.kwargNames kwargs (dictCopy t.paramToDefault, [])).2 := rfl

theorem callExec_starPargs {V : Type} (t : StaticTables V)
    (f : List V → List (String × V) → Except String V)
    (pargs : List V) (kwargs : List (String × V)) :
    (callExec t f pargs kwargs).starPargs =
      pargs.drop (remainingPargNames t.pargNames kwargs).length := rfl

theorem callExec_result {V : Type} (t : StaticTables V)
    (f : List V → List (String × V) → Except String V)
    (pargs : List V) (kwargs : List (String × V)) :
    (callExec t f pargs kwargs).result =
      if t.starKwargsName.isSome &&
          (applyKwargs t.kwargNames kwargs (dictCopy t.paramToDefault, [])).2.isEmpty
      then Except.error maxEmptyMsg
      else f pargs kwargs := rfl

/-! ### Caller-locator lemmas -/

theorem getCallerInfoGo_pos (skip : List (String × String)) (chain : List Frame) :
    ∀ i : Nat, 0 < i →
      getCallerInfoGo i chain skip =
        match firstNonSkipped chain skip with
        | some g => (g.filename, g.lineno, g.function, true)
        | none => ("", 0, "", true) := by
  induction chain with
  | nil => intro i _; rfl
  | cons f rest ih =>
    intro i hi
    unfold getCallerInfoGo
    by_cases hf : (f.filename, f.function) ∈ skip
    · rw [if_pos hf, ih (i + 1) (Nat.succ_pos i)]
      have hfs : firstNonSkipped (f :: rest) skip = firstNonSkipped rest skip := by
        simp [firstNonSkipped, List.find?_cons, hf]
      rw [hfs]
    · rw [if_neg hf]
      have hfs : firstNonSkipped (f :: rest) skip = some f := by
        simp [firstNonSkipped, List.find?_cons, hf]
      rw [hfs]
      simp [hi]

theorem getCallerInfoGo_all_skipped (skip : List (String × String))
    (chain : List Frame) (h : ∀ g ∈ chain, (g.filename, g.function) ∈ skip) :
    ∀ i : Nat, getCallerInfoGo i chain skip = ("", 0, "", true) := by
  induction chain with
  | nil => intro i; rfl
  | cons f rest ih =>
    intro i
    unfold getCallerInfoGo
    rw [if_pos (h f (List.mem_cons.mpr (Or.inl rfl)))]
    exact ih (fun g hg => h g (List.mem_cons.mpr (Or.inr hg))) (i + 1)

/-- C6: when the immediate caller frame is in the skip list, the locator
returns the nearest outward non-skipped frame with the skipped flag true;
when it is not, the locator returns the immediate caller directly with the
skipped flag false. -/
theorem c6_caller_locator_branches (hd : Frame) (rest : List Frame)
    (skip : List (String × String)) :
    ((hd.filename, hd.function) ∉ skip →
      getCallerInfo (hd :: rest) skip =
        (hd.filename, hd.lineno, hd.function, false)) ∧
    ((hd.filename, hd.function) ∈ skip →
      ∀ g : Frame, firstNonSkipped rest skip = some g →
        getCallerInfo (hd :: rest) skip =
          (g.filename, g.lineno, g.function, true)) := by
  constructor
  · intro h
    unfold getCallerInfo getCallerInfoGo
    rw [if_neg h]
    rfl
  · intro h g hg
    unfold getCallerInfo getCallerInfoGo
    rw [if_pos h, getCallerInfoGo_pos skip rest 1 Nat.one_pos, hg]

/-- Witness for C6 at a concrete two-frame chain and a concrete skip list. -/
theorem c6_caller_locator_branches_witness :
    getCallerInfo [⟨"w.py", 7, "inner"⟩, ⟨"app.py", 42, "main"⟩]
        [("w.py", "inner")] = ("app.py", 42, "main", true) ∧
    getCallerInfo [⟨"app.py", 42, "main"⟩] [("w.py", "inner")] =
      ("app.py", 42, "main", false) := by
  constructor
  · exact (c6_caller_locator_branches ⟨"w.py", 7, "inner"⟩
      [⟨"app.py", 42, "main"⟩] [("w.py", "inner")]).2 (by decide)
      ⟨"app.py", 42, "main"⟩ (by decide)
  · exact (c6_caller_locator_branches ⟨"app.py", 42, "main"⟩ []
      [("w.py", "inner")]).1 (by decide)

/-- C7: when every frame of the chain (possibly none) is in the skip list,
the locator returns the empty/zero sentinel with the skipped flag true. -/
theorem c7_caller_locator_exhausted (chain : List Frame)
    (skip : List (String × String))
    (h : ∀ g ∈ chain, (g.filename, g.function) ∈ skip) :
    getCallerInfo chain skip = ("", 0, "", true) :=
  getCallerInfoGo_all_skipped skip chain h 0

/-- Witness for C7 at a fully skipped one-frame chain. -/
theorem c7_caller_locator_exhausted_witness :
    getCallerInfo [⟨"w.py", 7, "inner"⟩] [("w.py", "inner")] =
      ("", 0, "", true) :=
  c7_caller_locator_exhausted [⟨"w.py", 7, "inner"⟩] [("w.py", "inner")]
    (by decide)

/-! ### Decoration-time and transparency claims -/

/-- C3: the claim says a callable with zero named parameters must not crash
decoration; in the code `max(len(name) for name in param_to_default)`
(line 98) raises `ValueError` on the empty table, so decoration of
`def f(*args, **kwargs)` fails. -/
theorem c3_decoration_crash_eval :
    debugCallsTables
      ([⟨"args", PKind.varPos, none⟩, ⟨"kwargs", PKind.varKw, none⟩] :
        List (Param Int)) = none := rfl

/-- The parameters of `def f(a, **kw)` used as a concrete failing input. -/
def c1params : List (Param Int) :=
  [⟨"a", PKind.posOrKw, none⟩, ⟨"kw", PKind.varKw, none⟩]

/-- A wrapped callable that returns 0 on every call. -/
def c1f : List Int → List (String × Int) → Except String Int :=
  fun _ _ => Except.ok 0

/-- C1: the claim says the wrapper returns the same outcome as the
undecorated callable on every valid call.  For `def f(a, **kw)` invoked as
`f(1)` — a valid call on which the undecorated callable returns 0 — the
wrapper raises `ValueError` at line 130 (`max()` over the empty
`star_kwargs`) before ever invoking the callable (the outcome is the error
for every wrapped callable `g`). -/
theorem c1_wrapper_not_transparent_eval :
    ValidCall c1params [1] [] ∧
    c1f [1] [] = Except.ok 0 ∧
    (∀ g : List Int → List (String × Int) → Except String Int,
      (callExec (buildTables c1params) g [1] []).result =
        Except.error maxEmptyMsg) :=
  ⟨by decide, rfl, fun _ => rfl⟩

/-- C2: the claim says line 118 excludes every positional-capable name that
appears as a key of the keyword arguments.  The membership test
`name not in kwargs.items()` compares a string against (key, value) tuples
and is always true, so the code never excludes anything: on `def f(a)`
invoked as `f(a=1)` the code keeps `["a"]` while the claimed filter
yields `[]`. -/
theorem c2_remaining_filter_noop :
    (∀ (pn : List String) (kwargs : List (String × Int)),
      remainingPargNames pn kwargs = pn) ∧
    remainingPargNames ["a"] ([("a", 1)] : List (String × Int)) = ["a"] ∧
    remainingPargNamesSpec ["a"] ([("a", 1)] : List (String × Int)) = [] :=
  ⟨fun pn kwargs => remainingPargNames_eq_pargNames pn kwargs, rfl, rfl⟩

/-- C4: when the callable declares a variadic-keyword parameter and every
actual keyword argument matches a keyword-capable name, `star_kwargs` is
empty, so line 130 (`max()` over the empty collection) raises `ValueError`
and the wrapped callable `f` is never invoked (the outcome is the error
uniformly in `f`). -/
theorem c4_wrapper_raises_on_matched_kwargs {V : Type} (params : List (Param V))
    (f : List V → List (String × V) → Except String V)
    (pargs : List V) (kwargs : List (String × V)) (q : Param V)
    (hq : q ∈ params) (hk : q.kind = PKind.varKw)
    (hall : ∀ kv ∈ kwargs, kv.1 ∈ (buildTables params).kwargNames) :
    (callExec (buildTables params) f pargs kwargs).result =
      Except.error maxEmptyMsg := by
  rw [callExec_result]
  have hsome := buildTables_starKw_isSome params q hq hk
  have hstar : (applyKwargs (buildTables params).kwargNames kwargs
      (dictCopy (buildTables params).paramToDefault, [])).2 = [] := by
    rw [applyKwargs_star, List.nil_append, List.filter_eq_nil_iff]
    intro kv hkv
    have hc : List.elem kv.1 (buildTables params).kwargNames = true :=
      List.elem_iff.mpr (hall kv hkv)
    show ¬(!(List.elem kv.1 (buildTables params).kwargNames)) = true
    rw [hc]
    simp
  rw [hstar, hsome]
  rfl

/-- Witness for C4: `def f(a, **kw)` invoked as `f(a=5)`. -/
theorem c4_wrapper_raises_on_matched_kwargs_witness :
    (callExec (buildTables c1params) c1f [] [("a", 5)]).result =
      Except.error maxEmptyMsg :=
  c4_wrapper_raises_on_matched_kwargs c1params c1f [] [("a", 5)]
    ⟨"kw", PKind.varKw, none⟩ (by decide) rfl (by decide)

/-- The parameters of `def f(a, /, b, *, c, d="x")`. -/
def f8params : List (Param PyVal) :=
  [⟨"a", PKind.posOnly, none⟩, ⟨"b", PKind.posOrKw, none⟩,
   ⟨"c", PKind.kwOnly, none⟩, ⟨"d", PKind.kwOnly, some (.str "x")⟩]

/-- A wrapped callable over `PyVal` returning 0 on every call. -/
def f8fn : List PyVal → List (String × PyVal) → Except String PyVal :=
  fun _ _ => Except.ok (.int 0)

/-- C8: for `def f(a, /, b, *, c, d="x")` invoked as `f(1, 2, c=3)` — a
valid call — the named-parameter report rows are `(p) a: 1`, `(p) b: 2`,
`(k) c: 3`, `(d) d: "x"`, in exactly that order. -/
theorem c8_example_report :
    ValidCall f8params [.int 1, .int 2] [("c", PyVal.int 3)] ∧
    reportRows (callExec (buildTables f8params) f8fn [.int 1, .int 2]
        [("c", PyVal.int 3)]).argToValue =
      [("p", "a", some (PyVal.int 1)), ("p", "b", some (PyVal.int 2)),
       ("k", "c", some (PyVal.int 3)), ("d", "d", some (PyVal.str "x"))] :=
  ⟨by decide, rfl⟩

/-- C9: the static tables captured by the wrapper closure are observed
unchanged after any invocation, and the per-call binding record starts from
a copy of `param_to_default` holding exactly the same items. -/
theorem c9_static_tables_immutable {V : Type} (t : StaticTables V)
    (f : List V → List (String × V) → Except String V)
    (pargs : List V) (kwargs : List (String × V)) :
    (callExec t f pargs kwargs).tablesAfter = t ∧
    dictCopy t.paramToDefault = t.paramToDefault :=
  ⟨rfl, List.map_id t.paramToDefault⟩

/-- C5: on every valid call, each named parameter's entry of the per-call
binding record is the one the spec describes: paired with a positional
argument it is tagged `"p"` with that argument; otherwise supplied by
name (keyword-capable and a key of the keyword arguments) it is tagged
`"k"` with that value; otherwise it is tagged `"d"` with the declared
default. -/
theorem c5_category_letters {V : Type} (params : List (Param V))
    (f : List V → List (String × V) → Except String V)
    (pargs : List V) (kwargs : List (String × V))
    (hnd : (params.map (fun p => p.name)).Nodup)
    (hvalid : ValidCall params pargs kwargs) :
    ∀ p ∈ params, p.kind.isNamed = true →
      lookupStr (callExec (buildTables params) f pargs kwargs).argToValue
          p.name =
        some (expectedEntry (posCapableNames params) (kwCapableNames params)
          pargs kwargs p.name p.default) := by
  intro p hp hnamed
  obtain ⟨hkwnd, -⟩ := hvalid
  rw [callExec_argToValue, buildTables_pargNames, buildTables_kwargNames,
    remainingPargNames_eq_pargNames]
  rw [lookupStr_applyPargs _ _ _ _ (posCapableNames_nodup params hnd)]
  rw [show dictCopy (buildTables params).paramToDefault =
    (buildTables params).paramToDefault from List.map_id _]
  rw [lookupStr_applyKwargs _ _ _ _ _ hkwnd]
  rw [buildTables_paramToDefault]
  have hbase := lookupStr_namedMap params p hnd hp hnamed
  unfold expectedEntry
  cases hzip : ((posCapableNames params).zip pargs).find?
      (fun e => e.1 == p.name) with
  | some e => rfl
  | none =>
    cases hf : kwargs.find? (fun e => e.1 == p.name) with
    | some kv =>
      cases hck : (kwCapableNames params).contains p.name with
      | true => simp [hck]
      | false => simp [hck, hbase]
    | none => simp [hbase]

/-- Witness for C5 at `def f(a, /, b, *, c, d="x")` invoked as
`f(1, 2, c=3)`. -/
theorem c5_category_letters_witness :
    ((f8params.map (fun p => p.name)).Nodup ∧
      ValidCall f8params [.int 1, .int 2] [("c", PyVal.int 3)]) ∧
    (∀ p ∈ f8params, p.kind.isNamed = true →
      lookupStr (callExec (buildTables f8params) f8fn [.int 1, .int 2]
          [("c", PyVal.int 3)]).argToValue p.name =
        some (expectedEntry (posCapableNames f8params) (kwCapableNames f8params)
          [.int 1, .int 2] [("c", PyVal.int 3)] p.name p.default)) :=
  ⟨⟨by decide, by decide⟩,
    c5_category_letters f8params f8fn [.int 1, .int 2] [("c", PyVal.int 3)]
      (by decide) (by decide)⟩

theorem not_mem_kwCapable_of_posOnly {V : Type} (params : List (Param V))
    (n : String) (df : Option V)
    (hnd : (params.map (fun p => p.name)).Nodup)
    (hp : (⟨n, PKind.posOnly, df⟩ : Param V) ∈ params) :
    n ∉ kwCapableNames params := by
  intro hmem
  obtain ⟨q, hq, hqname⟩ := List.mem_map.mp hmem
  have hqmem : q ∈ params := (List.mem_filter.mp hq).1
  have hqkind : (q.kind == PKind.posOrKw || q.kind == PKind.kwOnly) = true :=
    (List.mem_filter.mp hq).2
  have heq : q = (⟨n, PKind.posOnly, df⟩ : Param V) :=
    List.inj_on_of_nodup_map hnd hqmem hp hqname
  rw [heq] at hqkind
  simp at hqkind

/-- C10: a keyword argument whose name matches a positional-only parameter
is routed to the excess-keyword collection (positional-only names are not
keyword-capable), its binding-record entry is never tagged `"k"`, the
excess collection is printed under a variadic-keyword heading only when
such a parameter is declared, and the call is still forwarded unchanged to
the wrapped callable. -/
theorem c10_pos_only_keyword_excess {V : Type} (params : List (Param V))
    (f : List V → List (String × V) → Except String V)
    (pargs : List V) (kwargs : List (String × V)) (n : String)
    (df : Option V) (v : V)
    (hnd : (params.map (fun p => p.name)).Nodup)
    (hkwnd : (kwargs.map (fun kv => kv.1)).Nodup)
    (hp : (⟨n, PKind.posOnly, df⟩ : Param V) ∈ params)
    (hv : (n, v) ∈ kwargs) :
    (n, v) ∈ (callExec (buildTables params) f pargs kwargs).starKwargs ∧
    (∀ w : Option V,
      lookupStr (callExec (buildTables params) f pargs kwargs).argToValue n ≠
        some (w, "k")) ∧
    ((∀ q ∈ params, q.kind ≠ PKind.varKw) →
      starKwBlock (buildTables params)
        (callExec (buildTables params) f pargs kwargs).starKwargs = none) ∧
    (∀ nm : String, (buildTables params).starKwargsName = some nm →
      starKwBlock (buildTables params)
          (callExec (buildTables params) f pargs kwargs).starKwargs =
        some (nm, (callExec (buildTables params) f pargs kwargs).starKwargs)) ∧
    (callExec (buildTables params) f pargs kwargs).result = f pargs kwargs := by
  have hnotkw : n ∉ kwCapableNames params :=
    not_mem_kwCapable_of_posOnly params n df hnd hp
  have hcont : (kwCapableNames params).contains n = false := by
    rw [Bool.eq_false_iff]
    intro hc
    exact hnotkw (List.elem_iff.mp hc)
  have hstar : (callExec (buildTables params) f pargs kwargs).starKwargs =
      kwargs.filter (fun kv => !((kwCapableNames params).contains kv.1)) := by
    rw [callExec_starKwargs, buildTables_kwargNames, applyKwargs_star,
      List.nil_append]
  have hmemstar : (n, v) ∈ (callExec (buildTables params) f pargs kwargs).starKwargs := by
    rw [hstar]
    apply List.mem_filter.mpr
    constructor
    · exact hv
    · show (!((kwCapableNames params).contains (n, v).1)) = true
      rw [show ((n, v) : String × V).1 = n from rfl, hcont]
      rfl
  refine ⟨hmemstar, ?_, ?_, ?_, ?_⟩
  · intro w heq
    rw [callExec_argToValue, buildTables_pargNames, buildTables_kwargNames,
      remainingPargNames_eq_pargNames] at heq
    rw [lookupStr_applyPargs _ _ _ _ (posCapableNames_nodup params hnd)] at heq
    rw [show dictCopy (buildTables params).paramToDefault =
      (buildTables params).paramToDefault from List.map_id _] at heq
    rw [lookupStr_applyKwargs _ _ _ _ _ hkwnd] at heq
    rw [buildTables_paramToDefault] at heq
    have hbase := lookupStr_namedMap params ⟨n, PKind.posOnly, df⟩ hnd hp rfl
    cases hzip : ((posCapableNames params).zip pargs).find?
        (fun e => e.1 == n) with
    | some e =>
      rw [hzip] at heq
      simp at heq
    | none =>
      rw [hzip] at heq
      cases hf : kwargs.find? (fun e => e.1 == n) with
      | some kv =>
        rw [hf, hcont] at heq
        simp only [Bool.false_eq_true, if_false] at heq
        rw [hbase] at heq
        simp at heq
      | none =>
        rw [hf, hbase] at heq
        simp at heq
  · intro hnovk
    rw [starKwBlock, buildTables_starKw_none params hnovk]
    rfl
  · intro nm hnm
    rw [starKwBlock, hnm]
    rfl
  · rw [callExec_result]
    have hne : (applyKwargs (buildTables params).kwargNames kwargs
        (dictCopy (buildTables params).paramToDefault, [])).2 ≠ [] := by
      intro hempty
      rw [callExec_starKwargs] at hmemstar
      rw [hempty] at hmemstar
      cases hmemstar
    have hie : (applyKwargs (buildTables params).kwargNames kwargs
        (dictCopy (buildTables params).paramToDefault, [])).2.isEmpty = false := by
      rw [Bool.eq_false_iff]
      intro hie
      exact hne (List.isEmpty_iff.mp hie)
    rw [hie, Bool.and_false]
    rfl

/-- Witness for C10: `def f(a, /, b, *, c, d="x")` invoked with the keyword
argument `a=7` (alongside `b=1`, `c=2`). -/
theorem c10_pos_only_keyword_excess_witness :
    ((f8params.map (fun p => p.name)).Nodup ∧
      ((([("a", PyVal.int 7), ("b", PyVal.int 1), ("c", PyVal.int 2)] :
        List (String × PyVal)).map (fun kv => kv.1)).Nodup) ∧
      (⟨"a", PKind.posOnly, none⟩ : Param PyVal) ∈ f8params ∧
      ("a", PyVal.int 7) ∈
        ([("a", PyVal.int 7), ("b", PyVal.int 1), ("c", PyVal.int 2)] :
          List (String × PyVal))) ∧
    ("a", PyVal.int 7) ∈ (callExec (buildTables f8params) f8fn []
        [("a", PyVal.int 7), ("b", PyVal.int 1), ("c", PyVal.int 2)]).starKwargs ∧
    (callExec (buildTables f8params) f8fn []
        [("a", PyVal.int 7), ("b", PyVal.int 1), ("c", PyVal.int 2)]).result =
      f8fn [] [("a", PyVal.int 7), ("b", PyVal.int 1), ("c", PyVal.int 2)] := by
  have h := c10_pos_only_keyword_excess f8params f8fn []
    [("a", PyVal.int 7), ("b", PyVal.int 1), ("c", PyVal.int 2)] "a" none
    (PyVal.int 7) (by decide) (by decide) (by decide) (by decide)
  exact ⟨⟨by decide, by decide, by decide, by decide⟩, h.1, h.2.2.2.2⟩
